import Mathlib

/-!
Verification development for the micro-float codec core of the bitstring
repository (`bitstring/mxfp.py`, `bitstring/fp8.py`,
`bitstring/bitstore_helpers.py`).

Python `float` values are modelled by the extended rational type `EF`
(finite rational, two infinities and NaN), with the comparison, subtraction
and negation semantics of IEEE doubles restricted to exactly representable
values.  All float literals appearing in the source are exactly
representable, and every arithmetic operation the source performs on them
(halving, differences of representable micro-float values, powers of two)
is exact, so the rational model is bit-faithful on the inputs exercised
here.  Negative zero is collapsed onto `fin 0`; the one place Python's
`-0.0` is observable (`struct.pack('>e', -0.0)` yielding pattern `0x8000`)
is discussed at `fp16val`, whose value at `0x8000` is `fin 0` with the
sign bit recoverable from the pattern itself.
-/

namespace Bitstring

/-- Extended rationals: the value space of Python floats used by the codec. -/
inductive EF where
  | fin (q : ℚ)
  | inf
  | ninf
  | nan
deriving DecidableEq, Repr

namespace EF

/-- Python `-f`. -/
def neg : EF → EF
  | fin q => fin (-q)
  | inf => ninf
  | ninf => inf
  | nan => nan

/-- Python `a < b` on floats (NaN incomparable). -/
def lt : EF → EF → Bool
  | fin a, fin b => a < b
  | fin _, inf => true
  | ninf, fin _ => true
  | ninf, inf => true
  | _, _ => false

/-- Python `a == b` on floats (NaN equal to nothing, `-0.0 == 0.0` holds
because both are `fin 0` here). -/
def beq : EF → EF → Bool
  | fin a, fin b => a = b
  | inf, inf => true
  | ninf, ninf => true
  | _, _ => false

/-- Python `a <= b` on floats. -/
def le (a b : EF) : Bool := lt a b || beq a b

/-- Python `a > b` on floats. -/
def gt (a b : EF) : Bool := lt b a

/-- Python `a >= b` on floats. -/
def ge (a b : EF) : Bool := le b a

/-- Python `a - b` on floats (cases not reachable from finite-vs-infinite
operands collapse to NaN, as in IEEE). -/
def sub : EF → EF → EF
  | fin a, fin b => fin (a - b)
  | inf, fin _ => inf
  | fin _, inf => ninf
  | ninf, fin _ => ninf
  | fin _, ninf => inf
  | inf, ninf => inf
  | ninf, inf => ninf
  | _, _ => nan

/-- Python `math.isnan`. -/
def isNan : EF → Bool
  | nan => true
  | _ => false

end EF

/-!
## IEEE half precision (`struct.pack('>e', ...)` / `struct.unpack('>e', ...)`)

`fp16val` decodes a 16-bit pattern to its value; `packFP16` models
CPython's `_PyFloat_Pack2`: round to nearest half-precision value with
ties to even, `none` modelling the `OverflowError` raised when the
rounded magnitude reaches `2^16` (threshold `65520`).
-/

/-- Value of a 16-bit IEEE half-precision bit pattern. -/
def fp16val (p : ℕ) : EF :=
  let s := p / 32768 % 2
  let ebits := p / 1024 % 32
  let m := p % 1024
  let v : EF :=
    if ebits = 31 then (if m = 0 then EF.inf else EF.nan)
    else if ebits = 0 then EF.fin ((m : ℚ) * (2 : ℚ) ^ (-24 : ℤ))
    else EF.fin (((1024 + m : ℕ) : ℚ) * (2 : ℚ) ^ ((ebits : ℤ) - 25))
  if s = 0 then v else v.neg

/-- Round a rational to the nearest integer, ties to even. -/
def roundTiesEven (r : ℚ) : ℤ :=
  let fl := ⌊r⌋
  let fr := r - fl
  if fr < 1 / 2 then fl
  else if 1 / 2 < fr then fl + 1
  else if fl % 2 = 0 then fl else fl + 1

/-- Scan upward through binades: returns `e` with `pw = 2 ^ e ≤ a < 2 ^ (e + 1)`
given that `pw ≤ a` on entry and the fuel covers the remaining binades. -/
def findBinadeAux (a : ℚ) : ℚ → ℤ → ℕ → ℤ
  | _, e, 0 => e
  | pw, e, k + 1 => if a < pw * 2 then e else findBinadeAux a (pw * 2) (e + 1) k

/-- Binade exponent `e` with `2 ^ e ≤ a < 2 ^ (e + 1)`, valid for
`2 ^ (-14) ≤ a < 2 ^ 16` (the only range `packFP16` consults). -/
def findBinade (a : ℚ) : ℤ :=
  findBinadeAux a ((2 : ℚ) ^ (-14 : ℤ)) (-14) 30

/-- `struct.pack('>e', f)` as a 16-bit pattern; `none` is `OverflowError`. -/
def packFP16 : EF → Option ℕ
  | EF.nan => some 0x7E00
  | EF.inf => some 0x7C00
  | EF.ninf => some 0xFC00
  | EF.fin q =>
    if q = 0 then some 0
    else
      let s : ℕ := if q < 0 then 32768 else 0
      let a : ℚ := |q|
      if 65520 ≤ a then none
      else if a < (2 : ℚ) ^ (-14 : ℤ) then
        some (s + (roundTiesEven (a * 2 ^ 24)).toNat)
      else
        let e := findBinade a
        let k := (roundTiesEven (a / (2 : ℚ) ^ (e - 10))).toNat
        some (s + (e + 15).toNat * 1024 + (k - 1024))

/-!
## `bitstring/mxfp.py`
-/

/-- `MXFPFormat(exp_bits, mantissa_bits, bias)`. -/
structure MXFPFormat where
  exp_bits : ℕ
  mantissa_bits : ℕ
  bias : ℕ
deriving DecidableEq, Repr

namespace MXFPFormat

/-- Total width `1 + exp_bits + mantissa_bits`. -/
def length (fmt : MXFPFormat) : ℕ := 1 + fmt.exp_bits + fmt.mantissa_bits

/-- `createLUT_for_int_to_float` entry `i`: decompose into sign, exponent
and significand fields; exponent field zero uses the subnormal formula
(leading bit 0, exponent `1 - bias`), nonzero uses the normal formula.
For 8-bit layouts specific code points are overridden to inf/NaN, then the
sign is applied. -/
def lut_int_to_float (fmt : MXFPFormat) (i : ℕ) : EF :=
  let E := fmt.exp_bits
  let M := fmt.mantissa_bits
  let sign := i / 2 ^ (E + M) % 2
  let expf := i / 2 ^ M % 2 ^ E
  let m := i % 2 ^ M
  let sig : ℕ := if expf = 0 then m else 2 ^ M + m
  let e : ℤ := if expf = 0 then 1 - (fmt.bias : ℤ) else (expf : ℤ) - fmt.bias
  let f : ℚ := (sig : ℚ) / (2 : ℚ) ^ M * (2 : ℚ) ^ e
  let v : EF :=
    if fmt.length = 8 ∧ E = 5 ∧ (i = 124 ∨ i = 252) then EF.inf
    else if fmt.length = 8 ∧ E = 5 ∧
        (i = 125 ∨ i = 253 ∨ i = 126 ∨ i = 254 ∨ i = 127 ∨ i = 255) then EF.nan
    else if fmt.length = 8 ∧ E = 4 ∧ (i = 127 ∨ i = 255) then EF.nan
    else EF.fin f
  if sign = 0 then v else v.neg

/-- The positive loop of `slow_float_to_int`
(`for i in range(values // 2 - 1)`), fuel-counted; exhausting the loop
clips to the positive maximum `(1 << (length - 1)) - 1`. -/
def posScan (fmt : MXFPFormat) (f : EF) : ℕ → ℕ → ℕ
  | _, 0 => 2 ^ (fmt.exp_bits + fmt.mantissa_bits) - 1
  | i, k + 1 =>
    let lower := fmt.lut_int_to_float i
    let upper := fmt.lut_int_to_float (i + 1)
    if EF.beq f lower then i
    else if EF.beq f upper then i + 1
    else if EF.lt lower f && EF.lt f upper then
      let d1 := EF.sub f lower
      let d2 := EF.sub upper f
      if EF.lt d1 d2 then i
      else if EF.lt d2 d1 then i + 1
      else if i % 2 = 0 then i else i + 1
    else fmt.posScan f (i + 1) k

/-- The negative loop of `slow_float_to_int`
(`for i in range(values // 2, values - 1)`); exhausting it clips to the
negative maximum `(1 << length) - 1`. -/
def negScan (fmt : MXFPFormat) (f : EF) : ℕ → ℕ → ℕ
  | _, 0 => 2 ^ fmt.length - 1
  | i, k + 1 =>
    let upper := fmt.lut_int_to_float i
    let lower := fmt.lut_int_to_float (i + 1)
    if EF.beq f lower then i + 1
    else if EF.beq f upper then i
    else if EF.lt lower f && EF.lt f upper then
      let d1 := EF.sub f lower
      let d2 := EF.sub upper f
      if EF.lt d1 d2 then i + 1
      else if EF.lt d2 d1 then i
      else if i % 2 = 0 then i else i + 1
    else fmt.negScan f (i + 1) k

/-- `slow_float_to_int(f, lut, ...)`: positive branch scans code pairs
upward, negative branch scans downward, NaN returns 0. -/
def slow_float_to_int (fmt : MXFPFormat) (f : EF) : ℕ :=
  let half := 2 ^ (fmt.exp_bits + fmt.mantissa_bits)
  if EF.ge f (EF.fin 0) then fmt.posScan f 0 (half - 1)
  else if EF.lt f (EF.fin 0) then fmt.negScan f half (half - 1)
  else 0

/-- `createLUT_for_float16_to_mxfp` entry for half pattern `p`: the slow
conversion of the pattern's value, with the negative-zero code
`1 << (exp_bits + mantissa_bits)` redirected to 0. -/
def lut_float16_to_mxfp (fmt : MXFPFormat) (p : ℕ) : ℕ :=
  let r := fmt.slow_float_to_int (fp16val p)
  if r = 2 ^ (fmt.exp_bits + fmt.mantissa_bits) then 0 else r

/-- `MXFPFormat.float_to_int`: pack to half precision and index the encode
table; on `OverflowError` return the per-format clamp constants
(`0b01111110`/`0b11111110` for e4m3, `0b01111011`/`0b11111011` for e5m2,
otherwise the arithmetic maxima). -/
def float_to_int (fmt : MXFPFormat) (f : EF) : ℕ :=
  match packFP16 f with
  | none =>
    if fmt.exp_bits = 4 ∧ fmt.mantissa_bits = 3 then
      if EF.gt f (EF.fin 0) then 126 else 254
    else if fmt.exp_bits = 5 ∧ fmt.mantissa_bits = 2 then
      if EF.gt f (EF.fin 0) then 123 else 251
    else
      if EF.gt f (EF.fin 0) then 2 ^ (fmt.exp_bits + fmt.mantissa_bits) - 1
      else 2 ^ (1 + fmt.exp_bits + fmt.mantissa_bits) - 1
  | some p => fmt.lut_float16_to_mxfp p

end MXFPFormat

/-- `e2m1mxfp_fmt = MXFPFormat(exp_bits=2, mantissa_bits=1, bias=1)`. -/
def e2m1mxfp_fmt : MXFPFormat := ⟨2, 1, 1⟩

/-- `e2m3mxfp_fmt = MXFPFormat(exp_bits=2, mantissa_bits=3, bias=1)`. -/
def e2m3mxfp_fmt : MXFPFormat := ⟨2, 3, 1⟩

/-- `e3m2mxfp_fmt = MXFPFormat(exp_bits=3, mantissa_bits=2, bias=3)`. -/
def e3m2mxfp_fmt : MXFPFormat := ⟨3, 2, 3⟩

/-- `e4m3mxfp_fmt = MXFPFormat(exp_bits=4, mantissa_bits=3, bias=7)`. -/
def e4m3mxfp_fmt : MXFPFormat := ⟨4, 3, 7⟩

/-- `e5m2mxfp_fmt = MXFPFormat(exp_bits=5, mantissa_bits=2, bias=15)`. -/
def e5m2mxfp_fmt : MXFPFormat := ⟨5, 2, 15⟩

/-!
## `bitstring/fp8.py`

The two binary8 formats ship compressed lookup tables; `fp8.py` keeps the
reference code that produced them (`createLUT_for_int8_to_float`,
`createLUT_for_float16_to_float8`, `slow_float_to_int8`) alongside, and the
definitions below translate that reference code, which is the table
producer for the shipped blobs.
-/

/-- `FP8Format(exp_bits, bias)` with `mantissa_bits = 8 - 1 - exp_bits`. -/
structure FP8Format where
  exp_bits : ℕ
  bias : ℕ
deriving DecidableEq, Repr

namespace FP8Format

/-- `self.mantissa_bits = 8 - 1 - self.exp_bits`. -/
def mantissa_bits (fmt : FP8Format) : ℕ := 8 - 1 - fmt.exp_bits

/-- `createLUT_for_int8_to_float` entry `i`: the same sign/exponent/significand
decomposition as the MXFP decode table over an 8-bit layout, with the single
override `i2f[0b10000000] = nan`. -/
def lut_int8_to_float (fmt : FP8Format) (i : ℕ) : EF :=
  if i = 128 then EF.nan
  else
    let E := fmt.exp_bits
    let M := 7 - E
    let sign := i / 2 ^ (E + M) % 2
    let expf := i / 2 ^ M % 2 ^ E
    let m := i % 2 ^ M
    let sig : ℕ := if expf = 0 then m else 2 ^ M + m
    let e : ℤ := if expf = 0 then 1 - (fmt.bias : ℤ) else (expf : ℤ) - fmt.bias
    let f : ℚ := (sig : ℚ) / (2 : ℚ) ^ M * (2 : ℚ) ^ e
    if sign = 0 then EF.fin f else (EF.fin f).neg

/-- Positive loop of `slow_float_to_int8` (`for i in range(128)`): first
index whose table value exceeds `f` resolves to its predecessor; exhausting
the loop clips to `0b01111111`. -/
def posScan8 (fmt : FP8Format) (f : EF) : ℕ → ℕ → ℕ
  | _, 0 => 127
  | i, k + 1 =>
    if EF.lt f (fmt.lut_int8_to_float i) then i - 1
    else fmt.posScan8 f (i + 1) k

/-- Negative loop of `slow_float_to_int8` (`for i in range(130, 256)`);
exhausting it clips to `0b11111111`. -/
def negScan8 (fmt : FP8Format) (f : EF) : ℕ → ℕ → ℕ
  | _, 0 => 255
  | i, k + 1 =>
    if EF.gt f (fmt.lut_int8_to_float i) then i - 1
    else fmt.negScan8 f (i + 1) k

/-- `slow_float_to_int8`: truncating scan over the decode table; values in
`(lut[129], 0)` round up to positive zero, NaN maps to `0b10000000`. -/
def slow_float_to_int8 (fmt : FP8Format) (f : EF) : ℕ :=
  if EF.ge f (EF.fin 0) then fmt.posScan8 f 0 128
  else if EF.lt f (EF.fin 0) then
    if EF.gt f (fmt.lut_int8_to_float 129) then 0
    else fmt.negScan8 f 130 126
  else 128

/-- `createLUT_for_float16_to_float8` entry for half pattern `p`. -/
def lut_float16_to_float8 (fmt : FP8Format) (p : ℕ) : ℕ :=
  fmt.slow_float_to_int8 (fp16val p)

/-- `FP8Format.float_to_int8`: pack to half precision and index the encode
table; `OverflowError` returns `0b01111111`/`0b11111111` by sign. -/
def float_to_int8 (fmt : FP8Format) (f : EF) : ℕ :=
  match packFP16 f with
  | none => if EF.gt f (EF.fin 0) then 127 else 255
  | some p => fmt.lut_float16_to_float8 p

end FP8Format

/-- `fp143_fmt = FP8Format(exp_bits=4, bias=8)`. -/
def fp143_fmt : FP8Format := ⟨4, 8⟩

/-- `fp152_fmt = FP8Format(exp_bits=5, bias=16)`. -/
def fp152_fmt : FP8Format := ⟨5, 16⟩

/-!
## `bitstring/bitstore_helpers.py`

Strings are modelled as lists of character codes (the tokens in scope are
ASCII).  A `BitStore` is a most-significant-bit-first list of booleans, and
a raised `ValueError` is `none`.
-/

/-- One character of `str.lower()` on ASCII input. -/
def lowerCode (c : ℕ) : ℕ := if 65 ≤ c ∧ c ≤ 90 then c + 32 else c

/-- `tidy_input_string`: lowercase, then remove underscores (code 95) and
spaces (code 32). -/
def tidy_input_string (s : List ℕ) : List ℕ :=
  (((s.map lowerCode).filter fun c => c ≠ 95).filter fun c => c ≠ 32)

/-- `int(c, 16)` on a single character, `none` for `ValueError`. -/
def hexDigitVal (c : ℕ) : Option ℕ :=
  if 48 ≤ c ∧ c ≤ 57 then some (c - 48)
  else if 97 ≤ c ∧ c ≤ 102 then some (c - 87)
  else if 65 ≤ c ∧ c ≤ 70 then some (c - 55)
  else none

/-- A binary digit accepted by `bitarray.bitarray`. -/
def binDigitVal (c : ℕ) : Option ℕ :=
  if c = 48 then some 0 else if c = 49 then some 1 else none

/-- `int(c, 8)` on a single character, `none` for `ValueError`. -/
def octDigitVal (c : ℕ) : Option ℕ :=
  if 48 ≤ c ∧ c ≤ 55 then some (c - 48) else none

/-- `format(v, '0<w>b')`: the `w`-bit big-endian binary expansion. -/
def natBits (w v : ℕ) : List Bool :=
  (List.range w).map fun j => v / 2 ^ (w - 1 - j) % 2 = 1

/-- Digit-by-digit conversion; a digit rejected by `dv` is a `ValueError`. -/
def digitsToBits (dv : ℕ → Option ℕ) (w : ℕ) : List ℕ → Option (List Bool)
  | [] => some []
  | c :: cs =>
    match dv c, digitsToBits dv w cs with
    | some v, some rest => some (natBits w v ++ rest)
    | _, _ => none

/-- `hex2bitstore`: tidy, demand the `0x` prefix, 4 bits per digit. -/
def hex2bitstore (s : List ℕ) : Option (List Bool) :=
  let t := tidy_input_string s
  if t.take 2 = [48, 120] then digitsToBits hexDigitVal 4 (t.drop 2) else none

/-- `bin2bitstore`: tidy, demand the `0b` prefix, 1 bit per digit. -/
def bin2bitstore (s : List ℕ) : Option (List Bool) :=
  let t := tidy_input_string s
  if t.take 2 = [48, 98] then digitsToBits binDigitVal 1 (t.drop 2) else none

/-- `oct2bitstore`: tidy, demand the `0o` prefix, 3 bits per digit. -/
def oct2bitstore (s : List ℕ) : Option (List Bool) :=
  let t := tidy_input_string s
  if t.take 2 = [48, 111] then digitsToBits octDigitVal 3 (t.drop 2) else none

/-- `bitstore_from_token`: tidy, dispatch on the radix marker
(`0x`/`0b`/`0o` after lowercasing), unrecognized markers raise. -/
def bitstore_from_token (s : List ℕ) : Option (List Bool) :=
  let t := tidy_input_string s
  if t.take 2 = [48, 120] then hex2bitstore t
  else if t.take 2 = [48, 98] then bin2bitstore t
  else if t.take 2 = [48, 111] then oct2bitstore t
  else none

/-- The exponent field of a code point (`b[1:1 + exp_bits]` in the source's
bit decomposition). -/
def MXFPFormat.expField (fmt : MXFPFormat) (i : ℕ) : ℕ :=
  i / 2 ^ fmt.mantissa_bits % 2 ^ fmt.exp_bits

/-!
## Specification-side definitions

The following definitions follow the words of spec claims (not the source);
each is compared against the source-derived definitions above.
-/

/-- The truncation encoder asserted by the spec: `sign`, `exp = floor(log2 a)`,
`mantissa = floor((a / 2^exp - 1) * 2^M)`, `exp_biased = exp + B`, assembled
as `sign << (E+M) | exp_biased << M | mantissa`.  Stated for inputs whose
magnitude lies in `[2^(-14), 2^16)`, the range where `findBinade` is exact. -/
def claimTruncCode (fmt : MXFPFormat) (x : ℚ) : ℕ :=
  let s : ℕ := if x < 0 then 1 else 0
  let a : ℚ := |x|
  let e : ℤ := findBinade a
  let mant : ℤ := ⌊(a / (2 : ℚ) ^ e - 1) * 2 ^ fmt.mantissa_bits⌋
  let expb : ℤ := e + fmt.bias
  s * 2 ^ (fmt.exp_bits + fmt.mantissa_bits) +
    expb.toNat * 2 ^ fmt.mantissa_bits + mant.toNat

/-- The decode closed form asserted by the spec: nonzero exponent field gives
`sign * (1 + mantissa / 2^M) * 2^(exponent - B)`, zero exponent field gives
signed zero (`fin 0` here), with no per-code special cases in any format. -/
def claimDecodeSignedZero (fmt : MXFPFormat) (c : ℕ) : EF :=
  let E := fmt.exp_bits
  let M := fmt.mantissa_bits
  let sign := c / 2 ^ (E + M) % 2
  let expf := c / 2 ^ M % 2 ^ E
  let m := c % 2 ^ M
  let v : EF :=
    if expf = 0 then EF.fin 0
    else EF.fin ((1 + (m : ℚ) / (2 : ℚ) ^ M) * (2 : ℚ) ^ ((expf : ℤ) - fmt.bias))
  if sign = 0 then v else v.neg

/-- The decode closed form as amended: nonzero exponent field gives
`sign * (1 + mantissa / 2^M) * 2^(exponent - B)`; zero exponent field gives
the subnormal value `sign * (mantissa / 2^M) * 2^(1 - B)` (zero only when the
mantissa field is zero); the 8-bit layouts special-case their reserved
inf/NaN code points. -/
def decodeClosedForm (fmt : MXFPFormat) (c : ℕ) : EF :=
  let E := fmt.exp_bits
  let M := fmt.mantissa_bits
  let sign := c / 2 ^ (E + M) % 2
  let expf := c / 2 ^ M % 2 ^ E
  let m := c % 2 ^ M
  let v : EF :=
    if 1 + E + M = 8 ∧ E = 5 ∧ (c = 124 ∨ c = 252) then EF.inf
    else if 1 + E + M = 8 ∧ E = 5 ∧
        (c = 125 ∨ c = 253 ∨ c = 126 ∨ c = 254 ∨ c = 127 ∨ c = 255) then EF.nan
    else if 1 + E + M = 8 ∧ E = 4 ∧ (c = 127 ∨ c = 255) then EF.nan
    else if expf ≠ 0 then
      EF.fin ((1 + (m : ℚ) / (2 : ℚ) ^ M) * (2 : ℚ) ^ ((expf : ℤ) - fmt.bias))
    else EF.fin ((m : ℚ) / (2 : ℚ) ^ M * (2 : ℚ) ^ (1 - (fmt.bias : ℤ)))
  if sign = 0 then v else v.neg

/-- Selection between adjacent codes `c` and `c + 1` by distance to the
decoded values, ties to the even index (the amended claim's rounding rule,
phrased with the source's comparison and subtraction semantics). -/
def nearestPick (fmt : MXFPFormat) (c : ℕ) (x : ℚ) : ℕ :=
  if EF.lt (EF.sub (EF.fin x) (fmt.lut_int_to_float c))
      (EF.sub (fmt.lut_int_to_float (c + 1)) (EF.fin x)) then c
  else if EF.lt (EF.sub (fmt.lut_int_to_float (c + 1)) (EF.fin x))
      (EF.sub (EF.fin x) (fmt.lut_int_to_float c)) then c + 1
  else if c % 2 = 0 then c else c + 1

/-- The digit alphabet selected by a token's radix marker. -/
def radixDigitVal (t : List ℕ) : ℕ → Option ℕ :=
  if t.take 2 = [48, 120] then hexDigitVal
  else if t.take 2 = [48, 98] then binDigitVal
  else octDigitVal

section ScanLemmas

attribute [local semireducible] Rat.add Rat.mul Rat.inv Rat.sub

namespace EF

theorem beq_self_fin (q : ℚ) : EF.beq (EF.fin q) (EF.fin q) = true := by
  simp [EF.beq]

theorem beq_sides_of_lt {a b : EF} (h : EF.lt a b = true) :
    EF.beq a b = false ∧ EF.beq b a = false := by
  cases a <;> cases b <;> simp_all [EF.lt, EF.beq]
  exact ⟨ne_of_lt h, ne_of_gt h⟩

theorem lt_flip_of_lt {a b : EF} (h : EF.lt a b = true) : EF.lt b a = false := by
  cases a <;> cases b <;> simp_all [EF.lt]
  linarith

theorem lt_chain {a b c : EF} (h1 : EF.lt a b = true) (h2 : EF.lt b c = true) :
    EF.lt a c = true := by
  cases a <;> cases b <;> cases c <;> simp_all [EF.lt]
  linarith

theorem ge_zero_of_lt_zero {a : EF} (h : EF.lt a (EF.fin 0) = true) :
    EF.ge a (EF.fin 0) = false := by
  cases a <;> simp_all [EF.lt, EF.ge, EF.le, EF.beq]
  constructor
  · linarith
  · intro hq
    rw [← hq] at h
    exact absurd h (lt_irrefl 0)

end EF

namespace MXFPFormat

theorem posScan_resolve_lower (fmt : MXFPFormat) (f : EF) (i k : ℕ)
    (h : EF.beq f (fmt.lut_int_to_float i) = true) :
    fmt.posScan f i (k + 1) = i := by
  simp [MXFPFormat.posScan, h]

theorem posScan_resolve_upper (fmt : MXFPFormat) (f : EF) (i k : ℕ)
    (h1 : EF.beq f (fmt.lut_int_to_float i) = false)
    (h2 : EF.beq f (fmt.lut_int_to_float (i + 1)) = true) :
    fmt.posScan f i (k + 1) = i + 1 := by
  simp [MXFPFormat.posScan, h1, h2]

theorem posScan_between (fmt : MXFPFormat) (f : EF) (i k : ℕ)
    (h1 : EF.lt (fmt.lut_int_to_float i) f = true)
    (h2 : EF.lt f (fmt.lut_int_to_float (i + 1)) = true) :
    fmt.posScan f i (k + 1) =
      (if EF.lt (EF.sub f (fmt.lut_int_to_float i))
          (EF.sub (fmt.lut_int_to_float (i + 1)) f) then i
       else if EF.lt (EF.sub (fmt.lut_int_to_float (i + 1)) f)
          (EF.sub f (fmt.lut_int_to_float i)) then i + 1
       else if i % 2 = 0 then i else i + 1) := by
  have b1 := (EF.beq_sides_of_lt h1).2
  have b2 := (EF.beq_sides_of_lt h2).1
  simp [MXFPFormat.posScan, b1, b2, h1, h2]

theorem posScan_step (fmt : MXFPFormat) (f : EF) (i k : ℕ)
    (h1 : EF.lt (fmt.lut_int_to_float i) f = true)
    (h2 : EF.lt (fmt.lut_int_to_float (i + 1)) f = true) :
    fmt.posScan f i (k + 1) = fmt.posScan f (i + 1) k := by
  have b1 := (EF.beq_sides_of_lt h1).2
  have b2 := (EF.beq_sides_of_lt h2).2
  have l2 := EF.lt_flip_of_lt h2
  simp [MXFPFormat.posScan, b1, b2, l2]

theorem posScan_advance (fmt : MXFPFormat) (f : EF) (d : ℕ) : ∀ (i k : ℕ),
    (∀ j, i ≤ j → j ≤ i + d → EF.lt (fmt.lut_int_to_float j) f = true) →
    fmt.posScan f i (d + k) = fmt.posScan f (i + d) k := by
  induction d with
  | zero =>
    intro i k _
    rw [Nat.zero_add, Nat.add_zero]
  | succ e ih =>
    intro i k h
    have step : fmt.posScan f i (e + 1 + k) = fmt.posScan f (i + 1) (e + k) := by
      have : e + 1 + k = (e + k) + 1 := by omega
      rw [this]
      exact fmt.posScan_step f i (e + k) (h i le_rfl (by omega)) (h (i + 1) (by omega) (by omega))
    rw [step, ih (i + 1) k (fun j hj1 hj2 => h j (by omega) (by omega))]
    congr 1
    omega

theorem negScan_resolve_lower (fmt : MXFPFormat) (f : EF) (i k : ℕ)
    (h : EF.beq f (fmt.lut_int_to_float (i + 1)) = true) :
    fmt.negScan f i (k + 1) = i + 1 := by
  simp [MXFPFormat.negScan, h]

theorem negScan_resolve_upper (fmt : MXFPFormat) (f : EF) (i k : ℕ)
    (h1 : EF.beq f (fmt.lut_int_to_float (i + 1)) = false)
    (h2 : EF.beq f (fmt.lut_int_to_float i) = true) :
    fmt.negScan f i (k + 1) = i := by
  simp [MXFPFormat.negScan, h1, h2]

theorem negScan_between (fmt : MXFPFormat) (f : EF) (i k : ℕ)
    (h1 : EF.lt (fmt.lut_int_to_float (i + 1)) f = true)
    (h2 : EF.lt f (fmt.lut_int_to_float i) = true) :
    fmt.negScan f i (k + 1) =
      (if EF.lt (EF.sub f (fmt.lut_int_to_float (i + 1)))
          (EF.sub (fmt.lut_int_to_float i) f) then i + 1
       else if EF.lt (EF.sub (fmt.lut_int_to_float i) f)
          (EF.sub f (fmt.lut_int_to_float (i + 1))) then i
       else if i % 2 = 0 then i else i + 1) := by
  have b1 := (EF.beq_sides_of_lt h1).2
  have b2 := (EF.beq_sides_of_lt h2).1
  simp [MXFPFormat.negScan, b1, b2, h1, h2]

theorem negScan_step (fmt : MXFPFormat) (f : EF) (i k : ℕ)
    (h1 : EF.lt f (fmt.lut_int_to_float i) = true)
    (h2 : EF.lt f (fmt.lut_int_to_float (i + 1)) = true) :
    fmt.negScan f i (k + 1) = fmt.negScan f (i + 1) k := by
  have b1 := (EF.beq_sides_of_lt h2).1
  have b2 := (EF.beq_sides_of_lt h1).1
  have l2 := EF.lt_flip_of_lt h2
  simp [MXFPFormat.negScan, b1, b2, l2]

theorem negScan_advance (fmt : MXFPFormat) (f : EF) (d : ℕ) : ∀ (i k : ℕ),
    (∀ j, i ≤ j → j ≤ i + d → EF.lt f (fmt.lut_int_to_float j) = true) →
    fmt.negScan f (i) (d + k) = fmt.negScan f (i + d) k := by
  induction d with
  | zero =>
    intro i k _
    rw [Nat.zero_add, Nat.add_zero]
  | succ e ih =>
    intro i k h
    have step : fmt.negScan f i (e + 1 + k) = fmt.negScan f (i + 1) (e + k) := by
      have : e + 1 + k = (e + k) + 1 := by omega
      rw [this]
      exact fmt.negScan_step f i (e + k) (h i le_rfl (by omega)) (h (i + 1) (by omega) (by omega))
    rw [step, ih (i + 1) k (fun j hj1 hj2 => h j (by omega) (by omega))]
    congr 1
    omega

/-- From adjacent strict increases up to index `T`, any two indices
`i < j ≤ T` compare strictly. -/
theorem lut_chain_pos (fmt : MXFPFormat) (T : ℕ)
    (hs : ∀ j, j + 1 ≤ T →
      EF.lt (fmt.lut_int_to_float j) (fmt.lut_int_to_float (j + 1)) = true) :
    ∀ j, j ≤ T → ∀ i, i < j →
      EF.lt (fmt.lut_int_to_float i) (fmt.lut_int_to_float j) = true := by
  intro j
  induction j with
  | zero => intro _ i hi; omega
  | succ m ih =>
    intro hm i hi
    rcases Nat.lt_or_ge i m with hlt | hge
    · exact EF.lt_chain (ih (by omega) i hlt) (hs m hm)
    · have : i = m := by omega
      subst this
      exact hs i hm
/-- From adjacent strict decreases on `[lo, T]`, any two indices
`lo ≤ i < j ≤ T` compare strictly downward. -/
theorem lut_chain_neg (fmt : MXFPFormat) (lo T : ℕ)
    (hs : ∀ j, lo ≤ j → j + 1 ≤ T →
      EF.lt (fmt.lut_int_to_float (j + 1)) (fmt.lut_int_to_float j) = true) :
    ∀ j, j ≤ T → ∀ i, lo ≤ i → i < j →
      EF.lt (fmt.lut_int_to_float j) (fmt.lut_int_to_float i) = true := by
  intro j
  induction j with
  | zero => intro _ i _ hi; omega
  | succ m ih =>
    intro hm i hlo hi
    rcases Nat.lt_or_ge i m with hlt | hge
    · exact EF.lt_chain (hs m (by omega) hm) (ih (by omega) i hlo hlt)
    · have : i = m := by omega
      subst this
      exact hs i hlo hm

/-- Generic round-trip behaviour of `float_to_int ∘ lut_int_to_float`,
derived from per-format facts: table sortedness on the finite prefixes,
the zero entries at codes `0` and `H = 2 ^ (exp_bits + mantissa_bits)`,
the classification of NaN codes, and exactness of half-precision packing
on table values.  Non-NaN codes other than the negative-zero code `H`
return themselves; NaN codes and the code `H` return 0. -/
theorem roundtrip_gen (fmt : MXFPFormat) (H T negT : ℕ) (nanL : List ℕ)
    (hH : 2 ^ (fmt.exp_bits + fmt.mantissa_bits) = H)
    (hHpos : 2 ≤ H)
    (hT : T ≤ H - 1)
    (hnegT : negT ≤ 2 * H - 1)
    (hsortP : ∀ j, j < T →
      EF.lt (fmt.lut_int_to_float j) (fmt.lut_int_to_float (j + 1)) = true)
    (hsortN : ∀ j, j < negT → H ≤ j →
      EF.lt (fmt.lut_int_to_float (j + 1)) (fmt.lut_int_to_float j) = true)
    (h0 : fmt.lut_int_to_float 0 = EF.fin 0)
    (hmid : fmt.lut_int_to_float H = EF.fin 0)
    (hclassP : ∀ c, c < H → c ∉ nanL → c ≤ T)
    (hclassN : ∀ c, c < 2 * H → H < c → c ∉ nanL → c ≤ negT)
    (hnan : ∀ c ∈ nanL, fmt.lut_int_to_float c = EF.nan)
    (hselfP : ∀ c, c ≤ T →
      EF.beq (fmt.lut_int_to_float c) (fmt.lut_int_to_float c) = true)
    (hselfN : ∀ c, c ≤ negT → H ≤ c →
      EF.beq (fmt.lut_int_to_float c) (fmt.lut_int_to_float c) = true)
    (hpack : ∀ c, c < 2 * H →
      (packFP16 (fmt.lut_int_to_float c)).map fp16val =
        some (fmt.lut_int_to_float c)) :
    ∀ c, c < 2 * H → fmt.float_to_int (fmt.lut_int_to_float c) =
      (if c ∈ nanL then 0 else if c = H then 0 else c) := by
  intro c hc
  -- resolve the half-precision round trip on the table value
  have hpackc := hpack c hc
  rcases hp : packFP16 (fmt.lut_int_to_float c) with _ | p
  · rw [hp] at hpackc; simp at hpackc
  rw [hp] at hpackc
  simp only [Option.map_some'] at hpackc
  have hpv : fp16val p = fmt.lut_int_to_float c := Option.some.inj hpackc
  have hmain : fmt.float_to_int (fmt.lut_int_to_float c) =
      (if fmt.slow_float_to_int (fmt.lut_int_to_float c) = H then 0
       else fmt.slow_float_to_int (fmt.lut_int_to_float c)) := by
    simp only [MXFPFormat.float_to_int, hp, MXFPFormat.lut_float16_to_mxfp, hpv, hH]
  rw [hmain]
  by_cases hmem : c ∈ nanL
  · -- NaN code: the slow conversion of NaN is 0
    have hlc := hnan c hmem
    rw [hlc]
    have : fmt.slow_float_to_int EF.nan = 0 := by
      simp [MXFPFormat.slow_float_to_int, EF.ge, EF.le, EF.lt, EF.beq]
    rw [this, if_neg (show ¬(0 = H) by omega), if_pos hmem]
  · rw [if_neg hmem]
    by_cases hzero : c = 0 ∨ c = H
    · -- the two zero entries: the scan resolves at index 0
      have hlc : fmt.lut_int_to_float c = EF.fin 0 := by
        rcases hzero with h | h <;> rw [h] <;> [exact h0; exact hmid]
      have hge : EF.ge (fmt.lut_int_to_float c) (EF.fin 0) = true := by
        rw [hlc]; rfl
      have hslow : fmt.slow_float_to_int (fmt.lut_int_to_float c) = 0 := by
        simp only [MXFPFormat.slow_float_to_int, hge, if_pos, hH]
        obtain ⟨k, hk⟩ : ∃ k, H - 1 = k + 1 := ⟨H - 2, by omega⟩
        rw [hk]
        apply fmt.posScan_resolve_lower
        rw [hlc, h0]
        exact EF.beq_self_fin 0
      rw [hslow, if_neg (show ¬(0 = H) by omega)]
      rcases hzero with h | h
      · subst h; rw [if_neg (by omega)]
      · subst h; rw [if_pos rfl]
    · push_neg at hzero
      obtain ⟨hc0, hcH⟩ := hzero
      by_cases hpos : c < H
      · -- positive finite code: advance to the pair (c - 1, c) and resolve up
        have hcT := hclassP c hpos hmem
        have hchain := fmt.lut_chain_pos T hsortP
        have hlt0 : EF.lt (EF.fin 0) (fmt.lut_int_to_float c) = true := by
          have := hchain c hcT 0 (by omega)
          rwa [h0] at this
        have hge : EF.ge (fmt.lut_int_to_float c) (EF.fin 0) = true := by
          simp [EF.ge, EF.le, hlt0]
        have hslow : fmt.slow_float_to_int (fmt.lut_int_to_float c) = c := by
          simp only [MXFPFormat.slow_float_to_int, hge, if_pos, hH]
          have hsplit : H - 1 = (c - 1) + (H - c) := by omega
          rw [hsplit,
            fmt.posScan_advance (fmt.lut_int_to_float c) (c - 1) 0 (H - c)
              (fun j _ hj2 => hchain c hcT j (by omega)),
            Nat.zero_add]
          obtain ⟨k, hk⟩ : ∃ k, H - c = k + 1 := ⟨H - c - 1, by omega⟩
          rw [hk]
          have hstep : c - 1 + 1 = c := by omega
          rw [fmt.posScan_resolve_upper _ _ _
            ((EF.beq_sides_of_lt (hchain c hcT (c - 1) (by omega))).2)
            (by rw [hstep]; exact hselfP c hcT)]
          exact hstep
        rw [hslow, if_neg (show ¬(c = H) by omega)]
      · -- negative code: advance downward to the pair (c - 1, c) and resolve
        have hcH' : H < c := by omega
        have hcT := hclassN c hc hcH' hmem
        have hchain := fmt.lut_chain_neg H negT (fun j hj1 hj2 => hsortN j hj2 hj1)
        have hltz : EF.lt (fmt.lut_int_to_float c) (EF.fin 0) = true := by
          have := hchain c hcT H le_rfl hcH'
          rwa [hmid] at this
        have hge := EF.ge_zero_of_lt_zero hltz
        have hslow : fmt.slow_float_to_int (fmt.lut_int_to_float c) = c := by
          simp only [MXFPFormat.slow_float_to_int, hge, hltz, if_pos,
            Bool.false_eq_true, if_false, hH]
          have hsplit : H - 1 = (c - 1 - H) + (2 * H - c) := by omega
          rw [hsplit,
            fmt.negScan_advance (fmt.lut_int_to_float c) (c - 1 - H) H (2 * H - c)
              (fun j hj1 hj2 => hchain c hcT j hj1 (by omega))]
          have hbase : H + (c - 1 - H) = c - 1 := by omega
          rw [hbase]
          obtain ⟨k, hk⟩ : ∃ k, 2 * H - c = k + 1 := ⟨2 * H - c - 1, by omega⟩
          rw [hk]
          have hstep : c - 1 + 1 = c := by omega
          rw [fmt.negScan_resolve_lower _ _ _
            (by rw [hstep]; exact hselfN c hcT (by omega))]
          exact hstep
        rw [hslow, if_neg (show ¬(c = H) by omega)]

end MXFPFormat

end ScanLemmas

section RoundTripInstances

attribute [local semireducible] Rat.add Rat.mul Rat.inv Rat.sub

set_option maxRecDepth 100000

theorem roundtrip_e2m1 : ∀ c, c < 16 →
    e2m1mxfp_fmt.float_to_int (e2m1mxfp_fmt.lut_int_to_float c) =
      (if c ∈ ([] : List ℕ) then 0 else if c = 8 then 0 else c) := by
  apply MXFPFormat.roundtrip_gen e2m1mxfp_fmt 8 7 15 []
  · rfl
  · omega
  · omega
  · omega
  · decide
  · decide
  · decide
  · decide
  · decide
  · decide
  · decide
  · decide
  · decide
  · decide

theorem roundtrip_e2m3 : ∀ c, c < 64 →
    e2m3mxfp_fmt.float_to_int (e2m3mxfp_fmt.lut_int_to_float c) =
      (if c ∈ ([] : List ℕ) then 0 else if c = 32 then 0 else c) := by
  apply MXFPFormat.roundtrip_gen e2m3mxfp_fmt 32 31 63 []
  · rfl
  · omega
  · omega
  · omega
  · decide
  · decide
  · decide
  · decide
  · decide
  · decide
  · decide
  · decide
  · decide
  · decide

theorem roundtrip_e3m2 : ∀ c, c < 64 →
    e3m2mxfp_fmt.float_to_int (e3m2mxfp_fmt.lut_int_to_float c) =
      (if c ∈ ([] : List ℕ) then 0 else if c = 32 then 0 else c) := by
  apply MXFPFormat.roundtrip_gen e3m2mxfp_fmt 32 31 63 []
  · rfl
  · omega
  · omega
  · omega
  · decide
  · decide
  · decide
  · decide
  · decide
  · decide
  · decide
  · decide
  · decide
  · decide

theorem roundtrip_e4m3 : ∀ c, c < 256 →
    e4m3mxfp_fmt.float_to_int (e4m3mxfp_fmt.lut_int_to_float c) =
      (if c ∈ [127, 255] then 0 else if c = 128 then 0 else c) := by
  apply MXFPFormat.roundtrip_gen e4m3mxfp_fmt 128 126 254 [127, 255]
  · rfl
  · omega
  · omega
  · omega
  · decide
  · decide
  · decide
  · decide
  · decide
  · decide
  · decide
  · decide
  · decide
  · decide

theorem roundtrip_e5m2 : ∀ c, c < 256 →
    e5m2mxfp_fmt.float_to_int (e5m2mxfp_fmt.lut_int_to_float c) =
      (if c ∈ [125, 126, 127, 253, 254, 255] then 0 else if c = 128 then 0 else c) := by
  apply MXFPFormat.roundtrip_gen e5m2mxfp_fmt 128 124 252 [125, 126, 127, 253, 254, 255]
  · rfl
  · omega
  · omega
  · omega
  · decide
  · decide
  · decide
  · decide
  · decide
  · decide
  · decide
  · decide
  · decide
  · decide

end RoundTripInstances

section NearestLemmas

attribute [local semireducible] Rat.add Rat.mul Rat.inv Rat.sub

/-- Generic nearest-code behaviour of the encode table: for a half-precision
value lying strictly between the decoded values of adjacent codes `c` and
`c + 1` in the sorted positive prefix, the table entry is the code whose
decoded value is nearer, ties resolved to the even index — not the
truncation `c`. -/
theorem encode_nearest_gen (fmt : MXFPFormat) (H T : ℕ)
    (hH : 2 ^ (fmt.exp_bits + fmt.mantissa_bits) = H)
    (hHpos : 2 ≤ H)
    (hT : T ≤ H - 1)
    (hsortP : ∀ j, j < T →
      EF.lt (fmt.lut_int_to_float j) (fmt.lut_int_to_float (j + 1)) = true)
    (h0 : fmt.lut_int_to_float 0 = EF.fin 0)
    (p c : ℕ) (x : ℚ) (hc : c + 1 ≤ T)
    (hpv : fp16val p = EF.fin x)
    (hlow : EF.lt (fmt.lut_int_to_float c) (EF.fin x) = true)
    (hup : EF.lt (EF.fin x) (fmt.lut_int_to_float (c + 1)) = true) :
    fmt.lut_float16_to_mxfp p = nearestPick fmt c x := by
  unfold nearestPick
  have hx0 : EF.lt (EF.fin 0) (EF.fin x) = true := by
    rcases Nat.eq_zero_or_pos c with hc0 | hc0
    · subst hc0; rwa [h0] at hlow
    · have hcT : c ≤ T := by omega
      have h1 := fmt.lut_chain_pos T hsortP c hcT 0 hc0
      rw [h0] at h1
      exact EF.lt_chain h1 hlow
  have hge : EF.ge (EF.fin x) (EF.fin 0) = true := by
    simp [EF.ge, EF.le, hx0]
  have hslow : fmt.slow_float_to_int (EF.fin x) =
      (if EF.lt (EF.sub (EF.fin x) (fmt.lut_int_to_float c))
          (EF.sub (fmt.lut_int_to_float (c + 1)) (EF.fin x)) then c
       else if EF.lt (EF.sub (fmt.lut_int_to_float (c + 1)) (EF.fin x))
          (EF.sub (EF.fin x) (fmt.lut_int_to_float c)) then c + 1
       else if c % 2 = 0 then c else c + 1) := by
    simp only [MXFPFormat.slow_float_to_int, hge, if_pos, hH]
    have hsplit : H - 1 = c + (H - 1 - c) := by omega
    rw [hsplit,
      fmt.posScan_advance (EF.fin x) c 0 (H - 1 - c)
        (fun j _ hj2 => by
          rcases Nat.lt_or_ge j c with hj | hj
          · have hcT : c ≤ T := by omega
            exact EF.lt_chain (fmt.lut_chain_pos T hsortP c hcT j hj) hlow
          · have : j = c := by omega
            subst this
            exact hlow),
      Nat.zero_add]
    obtain ⟨k, hk⟩ : ∃ k, H - 1 - c = k + 1 := ⟨H - 2 - c, by omega⟩
    rw [hk]
    exact fmt.posScan_between (EF.fin x) c k hlow hup
  have hne : (if EF.lt (EF.sub (EF.fin x) (fmt.lut_int_to_float c))
          (EF.sub (fmt.lut_int_to_float (c + 1)) (EF.fin x)) then c
       else if EF.lt (EF.sub (fmt.lut_int_to_float (c + 1)) (EF.fin x))
          (EF.sub (EF.fin x) (fmt.lut_int_to_float c)) then c + 1
       else if c % 2 = 0 then c else c + 1) ≠ 2 ^ (fmt.exp_bits + fmt.mantissa_bits) := by
    rw [hH]
    split_ifs <;> omega
  simp only [MXFPFormat.lut_float16_to_mxfp, hpv, hslow, if_neg hne]

end NearestLemmas

section FlushLemmas

attribute [local semireducible] Rat.add Rat.mul Rat.inv Rat.sub

/-- Generic flush-to-zero behaviour of the encode table: a nonzero
half-precision value whose magnitude is at most half the smallest nonzero
entry `u` resolves against the pair at index 0 (positive side) or at index
`H` (negative side, through the negative-zero redirect) and lands on
code 0. -/
theorem flush_zero_gen (fmt : MXFPFormat) (H : ℕ) (u : ℚ)
    (hH : 2 ^ (fmt.exp_bits + fmt.mantissa_bits) = H)
    (hHpos : 2 ≤ H)
    (hHeven : H % 2 = 0)
    (h0 : fmt.lut_int_to_float 0 = EF.fin 0)
    (h1 : fmt.lut_int_to_float 1 = EF.fin u)
    (hmid : fmt.lut_int_to_float H = EF.fin 0)
    (hmid1 : fmt.lut_int_to_float (H + 1) = EF.fin (-u))
    (hu : 0 < u)
    (p : ℕ) (x : ℚ)
    (hpv : fp16val p = EF.fin x)
    (hx0 : x ≠ 0)
    (hxb : |x| * 2 ≤ u) :
    fmt.lut_float16_to_mxfp p = 0 := by
  rcases lt_or_gt_of_ne hx0 with hneg | hpos
  · -- negative input: the scan returns the negative-zero code H,
    -- redirected to 0 by the table builder
    have hxlt : EF.lt (EF.fin x) (EF.fin 0) = true := by
      simp [EF.lt, hneg]
    have habs : -x * 2 ≤ u := by
      rwa [abs_of_neg hneg] at hxb
    have hge := EF.ge_zero_of_lt_zero hxlt
    have hslow : fmt.slow_float_to_int (EF.fin x) = H := by
      simp only [MXFPFormat.slow_float_to_int, hge, hxlt, if_pos,
        Bool.false_eq_true, if_false, hH]
      obtain ⟨k, hk⟩ : ∃ k, H - 1 = k + 1 := ⟨H - 2, by omega⟩
      rw [hk]
      rw [fmt.negScan_between (EF.fin x) H k
        (by rw [hmid1]; simp [EF.lt]; linarith)
        (by rw [hmid]; simp [EF.lt]; linarith)]
      rw [hmid, hmid1]
      simp only [EF.sub]
      split_ifs with hA hB
      · exfalso
        simp [EF.lt] at hA
        linarith
      · rfl
      · simp [hHeven]
    simp only [MXFPFormat.lut_float16_to_mxfp, hpv, hslow, hH, if_pos]
  · -- positive input: the scan resolves at the pair (0, 1) and returns 0
    have hxgt : EF.lt (EF.fin 0) (EF.fin x) = true := by
      simp [EF.lt, hpos]
    have habs : x * 2 ≤ u := by
      rwa [abs_of_pos hpos] at hxb
    have hge : EF.ge (EF.fin x) (EF.fin 0) = true := by
      simp [EF.ge, EF.le, hxgt]
    have hslow : fmt.slow_float_to_int (EF.fin x) = 0 := by
      simp only [MXFPFormat.slow_float_to_int, hge, if_pos, hH]
      obtain ⟨k, hk⟩ : ∃ k, H - 1 = k + 1 := ⟨H - 2, by omega⟩
      rw [hk]
      rw [fmt.posScan_between (EF.fin x) 0 k
        (by rw [h0]; exact hxgt)
        (by rw [h1]; simp [EF.lt]; linarith)]
      rw [h0, h1]
      simp only [EF.sub]
      split_ifs with hA hB
      · rfl
      · exfalso
        simp [EF.lt] at hB
        linarith
      · norm_num
    rw [MXFPFormat.lut_float16_to_mxfp, hpv, hslow, if_neg (by omega)]

end FlushLemmas

section MonoLemmas

/-- Generic restricted monotonicity of the decode table on non-negative
codes: below the sorted bound `T` (located via the classification
hypothesis) the table is strictly increasing, hence weakly monotone. -/
theorem mono_gen (fmt : MXFPFormat) (Hf T : ℕ)
    (hsortP : ∀ j, j < T →
      EF.lt (fmt.lut_int_to_float j) (fmt.lut_int_to_float (j + 1)) = true)
    (hclass : ∀ c, c < Hf → fmt.expField c ≠ 0 →
      fmt.lut_int_to_float c ≠ EF.nan → c ≤ T) :
    ∀ c1 c2, c1 < Hf → c2 < Hf → c1 < c2 →
      fmt.expField c1 ≠ 0 → fmt.expField c2 ≠ 0 →
      fmt.lut_int_to_float c2 ≠ EF.nan →
      EF.le (fmt.lut_int_to_float c1) (fmt.lut_int_to_float c2) = true := by
  intro c1 c2 h1 h2 h12 he1 he2 hn2
  have hc2T := hclass c2 h2 he2 hn2
  have hlt := fmt.lut_chain_pos T hsortP c2 hc2T c1 h12
  simp [EF.le, hlt]

end MonoLemmas

section TokenLemmas

theorem lowerCode_idem (c : ℕ) : lowerCode (lowerCode c) = lowerCode c := by
  unfold lowerCode
  split_ifs <;> omega

theorem tidy_cons (c : ℕ) (cs : List ℕ) :
    tidy_input_string (c :: cs) =
      if lowerCode c = 95 ∨ lowerCode c = 32 then tidy_input_string cs
      else lowerCode c :: tidy_input_string cs := by
  simp only [tidy_input_string, List.map_cons, List.filter_cons]
  by_cases h95 : lowerCode c = 95 <;> by_cases h32 : lowerCode c = 32 <;>
    simp [h95, h32]

theorem tidy_idem (s : List ℕ) :
    tidy_input_string (tidy_input_string s) = tidy_input_string s := by
  induction s with
  | nil => rfl
  | cons c cs ih =>
    rw [tidy_cons]
    split_ifs with h
    · exact ih
    · rw [tidy_cons, lowerCode_idem, if_neg h, ih]

theorem digitsToBits_length (dv : ℕ → Option ℕ) (w : ℕ) :
    ∀ l bs, digitsToBits dv w l = some bs → bs.length = w * l.length := by
  intro l
  induction l with
  | nil =>
    intro bs h
    simp only [digitsToBits, Option.some.injEq] at h
    subst h
    simp
  | cons c cs ih =>
    intro bs h
    simp only [digitsToBits] at h
    rcases hv : dv c with _ | v <;> rw [hv] at h
    · exact absurd h (by simp)
    rcases hr : digitsToBits dv w cs with _ | rest <;> rw [hr] at h
    · exact absurd h (by simp)
    simp only [Option.some.injEq] at h
    subst h
    have hn : (natBits w v).length = w := by simp [natBits]
    simp only [List.length_append, List.length_cons, hn, ih rest hr]
    ring

theorem digitsToBits_isNone_iff (dv : ℕ → Option ℕ) (w : ℕ) :
    ∀ l, digitsToBits dv w l = none ↔ ∃ c ∈ l, dv c = none := by
  intro l
  induction l with
  | nil => simp [digitsToBits]
  | cons c cs ih =>
    simp only [digitsToBits]
    rcases hv : dv c with _ | v
    · simp only []
      constructor
      · intro _
        exact ⟨c, List.mem_cons_self c cs, hv⟩
      · intro _
        trivial
    · rcases hr : digitsToBits dv w cs with _ | rest
      · simp only []
        constructor
        · intro _
          obtain ⟨d, hd, hdn⟩ := ih.mp hr
          exact ⟨d, List.mem_cons_of_mem c hd, hdn⟩
        · intro _
          trivial
      · simp only []
        constructor
        · intro hcontra
          exact absurd hcontra (by simp)
        · rintro ⟨d, hd, hdn⟩
          rcases List.mem_cons.mp hd with rfl | hd'
          · rw [hv] at hdn
            exact absurd hdn (by simp)
          · have hcs := ih.mpr ⟨d, hd', hdn⟩
            rw [hr] at hcs
            exact absurd hcs (by simp)

end TokenLemmas

/-!
## Claim theorems
-/

section Claims

attribute [local semireducible] Rat.add Rat.mul Rat.inv Rat.sub

set_option maxRecDepth 100000

/-- C1, counterexample: at input 11/4 (a finite, nonzero value inside the
e2m1 normal range [1, 6], exactly representable in half precision) the
encoder returns code 5 (decoded value 3, the nearest representable), while
the claim's truncation formula assembles code 4 (decoded value 2).  The
encoder therefore does not compute the mantissa by truncation. -/
theorem C1_counterexample :
    e2m1mxfp_fmt.float_to_int (EF.fin (11 / 4)) = 5 ∧
    claimTruncCode e2m1mxfp_fmt (11 / 4) = 4 := by
  constructor <;> decide

/-- C1 (amended): for every format and every half-precision value `x`
strictly between the decoded values of adjacent codes `c` and `c + 1` of
the sorted positive finite prefix, the encode table selects the code with
the nearer decoded value, ties to the even code index — round-to-nearest,
not truncation toward zero. -/
theorem C1_round_to_nearest_even :
    (∀ p c x, c + 1 ≤ 7 → fp16val p = EF.fin x →
      EF.lt (e2m1mxfp_fmt.lut_int_to_float c) (EF.fin x) = true →
      EF.lt (EF.fin x) (e2m1mxfp_fmt.lut_int_to_float (c + 1)) = true →
      e2m1mxfp_fmt.lut_float16_to_mxfp p = nearestPick e2m1mxfp_fmt c x) ∧
    (∀ p c x, c + 1 ≤ 31 → fp16val p = EF.fin x →
      EF.lt (e2m3mxfp_fmt.lut_int_to_float c) (EF.fin x) = true →
      EF.lt (EF.fin x) (e2m3mxfp_fmt.lut_int_to_float (c + 1)) = true →
      e2m3mxfp_fmt.lut_float16_to_mxfp p = nearestPick e2m3mxfp_fmt c x) ∧
    (∀ p c x, c + 1 ≤ 31 → fp16val p = EF.fin x →
      EF.lt (e3m2mxfp_fmt.lut_int_to_float c) (EF.fin x) = true →
      EF.lt (EF.fin x) (e3m2mxfp_fmt.lut_int_to_float (c + 1)) = true →
      e3m2mxfp_fmt.lut_float16_to_mxfp p = nearestPick e3m2mxfp_fmt c x) ∧
    (∀ p c x, c + 1 ≤ 126 → fp16val p = EF.fin x →
      EF.lt (e4m3mxfp_fmt.lut_int_to_float c) (EF.fin x) = true →
      EF.lt (EF.fin x) (e4m3mxfp_fmt.lut_int_to_float (c + 1)) = true →
      e4m3mxfp_fmt.lut_float16_to_mxfp p = nearestPick e4m3mxfp_fmt c x) ∧
    (∀ p c x, c + 1 ≤ 124 → fp16val p = EF.fin x →
      EF.lt (e5m2mxfp_fmt.lut_int_to_float c) (EF.fin x) = true →
      EF.lt (EF.fin x) (e5m2mxfp_fmt.lut_int_to_float (c + 1)) = true →
      e5m2mxfp_fmt.lut_float16_to_mxfp p = nearestPick e5m2mxfp_fmt c x) := by
  refine ⟨?_, ?_, ?_, ?_, ?_⟩
  · intro p c x hc hpv hlow hup
    exact encode_nearest_gen e2m1mxfp_fmt 8 7 rfl (by omega) (by omega)
      (by decide) (by decide) p c x hc hpv hlow hup
  · intro p c x hc hpv hlow hup
    exact encode_nearest_gen e2m3mxfp_fmt 32 31 rfl (by omega) (by omega)
      (by decide) (by decide) p c x hc hpv hlow hup
  · intro p c x hc hpv hlow hup
    exact encode_nearest_gen e3m2mxfp_fmt 32 31 rfl (by omega) (by omega)
      (by decide) (by decide) p c x hc hpv hlow hup
  · intro p c x hc hpv hlow hup
    exact encode_nearest_gen e4m3mxfp_fmt 128 126 rfl (by omega) (by omega)
      (by decide) (by decide) p c x hc hpv hlow hup
  · intro p c x hc hpv hlow hup
    exact encode_nearest_gen e5m2mxfp_fmt 128 124 rfl (by omega) (by omega)
      (by decide) (by decide) p c x hc hpv hlow hup

/-- C1, witness: pattern 16768 is the half-precision encoding of 11/4,
which lies between e2m1 codes 4 (value 2) and 5 (value 3); the table picks
the nearer code 5. -/
theorem C1_witness : e2m1mxfp_fmt.lut_float16_to_mxfp 16768 = 5 := by
  have h := C1_round_to_nearest_even.1 16768 4 (11 / 4) (by omega)
    (by decide) (by decide) (by decide)
  rw [h]
  decide

/-- C2, counterexample: in e2m1 (a format with no reserved inf/NaN region)
the negative-zero code 8 decodes to `-0.0` and re-encodes to 0, so
`to_code (to_float c) = c` fails at the non-reserved code 8. -/
theorem C2_counterexample :
    e2m1mxfp_fmt.float_to_int (e2m1mxfp_fmt.lut_int_to_float 8) ≠ 8 := by
  decide

/-- C2 (amended): round-tripping a code through decode then encode returns
the code itself for every non-reserved code except the negative-zero code
`2^(E+M)`, which returns 0; the reserved NaN codes of the 8-bit formats
also return 0 (not the clamp code), while the reserved ±inf codes of e5m2
return themselves. -/
theorem C2_round_trip :
    (∀ c : Fin 16, e2m1mxfp_fmt.float_to_int (e2m1mxfp_fmt.lut_int_to_float c.val) =
      (if c.val = 8 then 0 else c.val)) ∧
    (∀ c : Fin 64, e2m3mxfp_fmt.float_to_int (e2m3mxfp_fmt.lut_int_to_float c.val) =
      (if c.val = 32 then 0 else c.val)) ∧
    (∀ c : Fin 64, e3m2mxfp_fmt.float_to_int (e3m2mxfp_fmt.lut_int_to_float c.val) =
      (if c.val = 32 then 0 else c.val)) ∧
    (∀ c : Fin 256, e4m3mxfp_fmt.float_to_int (e4m3mxfp_fmt.lut_int_to_float c.val) =
      (if c.val ∈ [127, 255] then 0 else if c.val = 128 then 0 else c.val)) ∧
    (∀ c : Fin 256, e5m2mxfp_fmt.float_to_int (e5m2mxfp_fmt.lut_int_to_float c.val) =
      (if c.val ∈ [125, 126, 127, 253, 254, 255] then 0
       else if c.val = 128 then 0 else c.val)) := by
  refine ⟨?_, ?_, ?_, ?_, ?_⟩
  · intro c; simpa using roundtrip_e2m1 c.val c.isLt
  · intro c; simpa using roundtrip_e2m3 c.val c.isLt
  · intro c; simpa using roundtrip_e3m2 c.val c.isLt
  · intro c; exact roundtrip_e4m3 c.val c.isLt
  · intro c; exact roundtrip_e5m2 c.val c.isLt

/-- C3, counterexample: e2m1 code 1 has exponent field 0 and mantissa
field 1; the decode table holds the subnormal value 1/2, not the signed
zero asserted by the claim. -/
theorem C3_counterexample :
    e2m1mxfp_fmt.lut_int_to_float 1 = EF.fin (1 / 2) ∧
    claimDecodeSignedZero e2m1mxfp_fmt 1 = EF.fin 0 ∧
    e2m1mxfp_fmt.lut_int_to_float 1 ≠ claimDecodeSignedZero e2m1mxfp_fmt 1 := by
  refine ⟨by decide, by decide, by decide⟩

/-- C3 (amended): every decode table entry equals the closed form with a
subnormal (not signed-zero) branch for a zero exponent field, and with the
reserved inf/NaN code points of the two 8-bit formats special-cased. -/
theorem C3_decode_closed_form :
    (∀ c : Fin 16, e2m1mxfp_fmt.lut_int_to_float c.val = decodeClosedForm e2m1mxfp_fmt c.val) ∧
    (∀ c : Fin 64, e2m3mxfp_fmt.lut_int_to_float c.val = decodeClosedForm e2m3mxfp_fmt c.val) ∧
    (∀ c : Fin 64, e3m2mxfp_fmt.lut_int_to_float c.val = decodeClosedForm e3m2mxfp_fmt c.val) ∧
    (∀ c : Fin 256, e4m3mxfp_fmt.lut_int_to_float c.val = decodeClosedForm e4m3mxfp_fmt c.val) ∧
    (∀ c : Fin 256, e5m2mxfp_fmt.lut_int_to_float c.val = decodeClosedForm e5m2mxfp_fmt c.val) := by
  refine ⟨?_, ?_, ?_, ?_, ?_⟩ <;> decide

/-- C4, counterexample: the MXFP encoder maps NaN to code 0, not to the
sign-bit-only pattern `2^(E+M)` (8 for e2m1) asserted by the claim. -/
theorem C4_counterexample :
    e2m1mxfp_fmt.float_to_int EF.nan ≠ 2 ^ (2 + 1) := by
  decide

/-- C4 (amended): encoding NaN is total and returns code 0 for every MXFP
format (the slow conversion's NaN fallback), and the sign-bit-only pattern
`0b10000000` for the two binary8 formats. -/
theorem C4_nan_encoding :
    e2m1mxfp_fmt.float_to_int EF.nan = 0 ∧
    e2m3mxfp_fmt.float_to_int EF.nan = 0 ∧
    e3m2mxfp_fmt.float_to_int EF.nan = 0 ∧
    e4m3mxfp_fmt.float_to_int EF.nan = 0 ∧
    e5m2mxfp_fmt.float_to_int EF.nan = 0 ∧
    fp143_fmt.float_to_int8 EF.nan = 128 ∧
    fp152_fmt.float_to_int8 EF.nan = 128 := by
  refine ⟨by decide, by decide, by decide, by decide, by decide, by decide, by decide⟩

/-- C5, counterexample: 500 overflows the e4m3 format (maximum finite
magnitude 448) yet packs into half precision, so the encoder scans the
table, falls off the finite prefix at the NaN entry and returns 127 — the
reserved NaN code — instead of the claimed clamp constant 126. -/
theorem C5_counterexample :
    e4m3mxfp_fmt.float_to_int (EF.fin 500) = 127 ∧ (127 : ℕ) ≠ 126 := by
  refine ⟨by decide, by decide⟩

/-- C5 (amended): for magnitudes beyond half-precision range (pack raises
`OverflowError`, e.g. 1e300) every encoder returns its clamp code by sign:
the literal reserved constants for the 8-bit formats (126/254 for e4m3,
123/251 for e5m2, 127/255 for the binary8 formats) and the arithmetic
maxima `2^(E+M)-1` / `2^(1+E+M)-1` for the sub-8-bit formats. -/
theorem C5_overflow_clamp : ∀ q : ℚ, packFP16 (EF.fin q) = none →
    (e2m1mxfp_fmt.float_to_int (EF.fin q) = if 0 < q then 7 else 15) ∧
    (e2m3mxfp_fmt.float_to_int (EF.fin q) = if 0 < q then 31 else 63) ∧
    (e3m2mxfp_fmt.float_to_int (EF.fin q) = if 0 < q then 31 else 63) ∧
    (e4m3mxfp_fmt.float_to_int (EF.fin q) = if 0 < q then 126 else 254) ∧
    (e5m2mxfp_fmt.float_to_int (EF.fin q) = if 0 < q then 123 else 251) ∧
    (fp143_fmt.float_to_int8 (EF.fin q) = if 0 < q then 127 else 255) ∧
    (fp152_fmt.float_to_int8 (EF.fin q) = if 0 < q then 127 else 255) := by
  intro q h
  refine ⟨?_, ?_, ?_, ?_, ?_, ?_, ?_⟩ <;>
    simp [MXFPFormat.float_to_int, FP8Format.float_to_int8, h, EF.gt, EF.lt,
      e2m1mxfp_fmt, e2m3mxfp_fmt, e3m2mxfp_fmt, e4m3mxfp_fmt, e5m2mxfp_fmt,
      fp143_fmt, fp152_fmt]

/-- C5, witness: at ±1e300 the e4m3 encoder returns its clamp constants
126 and 254. -/
theorem C5_witness :
    e4m3mxfp_fmt.float_to_int (EF.fin ((10 : ℚ) ^ 300)) = 126 ∧
    e4m3mxfp_fmt.float_to_int (EF.fin (-((10 : ℚ) ^ 300))) = 254 := by
  constructor
  · have h := (C5_overflow_clamp ((10 : ℚ) ^ 300) (by decide)).2.2.2.1
    rw [h, if_pos (by positivity)]
  · have h := (C5_overflow_clamp (-((10 : ℚ) ^ 300)) (by decide)).2.2.2.1
    rw [h, if_neg (by norm_num)]

/-- C6, counterexample: 3/8 is a nonzero magnitude below the smallest
normal magnitude `2^(1-B-1) = 1/2` of e2m1, yet it encodes to code 1 (the
subnormal value 1/2, nearer than 0), not to code 0: encoding does not flush
every sub-normal-range magnitude to zero. -/
theorem C6_counterexample :
    e2m1mxfp_fmt.float_to_int (EF.fin (3 / 8)) = 1 ∧
    (3 / 8 : ℚ) < (2 : ℚ) ^ (-(1 : ℤ)) := by
  refine ⟨by decide, by decide⟩

/-- C6 (amended): the encode table flushes a nonzero half-precision value
to code 0 exactly in the nearest-rounding sense: whenever its magnitude is
at most half the smallest nonzero representable value of the format
(`2^(1-B-M) / 2`, ties falling to the even code 0 or, for negative inputs,
to the negative-zero code that the builder redirects to 0). -/
theorem C6_flush_to_zero :
    (∀ p x, fp16val p = EF.fin x → x ≠ 0 → |x| * 2 ≤ 1 / 2 →
      e2m1mxfp_fmt.lut_float16_to_mxfp p = 0) ∧
    (∀ p x, fp16val p = EF.fin x → x ≠ 0 → |x| * 2 ≤ 1 / 8 →
      e2m3mxfp_fmt.lut_float16_to_mxfp p = 0) ∧
    (∀ p x, fp16val p = EF.fin x → x ≠ 0 → |x| * 2 ≤ 1 / 16 →
      e3m2mxfp_fmt.lut_float16_to_mxfp p = 0) ∧
    (∀ p x, fp16val p = EF.fin x → x ≠ 0 → |x| * 2 ≤ 1 / 512 →
      e4m3mxfp_fmt.lut_float16_to_mxfp p = 0) ∧
    (∀ p x, fp16val p = EF.fin x → x ≠ 0 → |x| * 2 ≤ 1 / 65536 →
      e5m2mxfp_fmt.lut_float16_to_mxfp p = 0) := by
  refine ⟨?_, ?_, ?_, ?_, ?_⟩
  · intro p x hpv hx0 hxb
    exact flush_zero_gen e2m1mxfp_fmt 8 (1 / 2) rfl (by omega) (by decide)
      (by decide) (by decide) (by decide) (by decide) (by norm_num) p x hpv hx0 hxb
  · intro p x hpv hx0 hxb
    exact flush_zero_gen e2m3mxfp_fmt 32 (1 / 8) rfl (by omega) (by decide)
      (by decide) (by decide) (by decide) (by decide) (by norm_num) p x hpv hx0 hxb
  · intro p x hpv hx0 hxb
    exact flush_zero_gen e3m2mxfp_fmt 32 (1 / 16) rfl (by omega) (by decide)
      (by decide) (by decide) (by decide) (by decide) (by norm_num) p x hpv hx0 hxb
  · intro p x hpv hx0 hxb
    exact flush_zero_gen e4m3mxfp_fmt 128 (1 / 512) rfl (by omega) (by decide)
      (by decide) (by decide) (by decide) (by decide) (by norm_num) p x hpv hx0 hxb
  · intro p x hpv hx0 hxb
    exact flush_zero_gen e5m2mxfp_fmt 128 (1 / 65536) rfl (by omega) (by decide)
      (by decide) (by decide) (by decide) (by decide) (by norm_num) p x hpv hx0 hxb

/-- C6, witness: pattern 13312 is the half-precision encoding of 1/4,
half of e2m1's smallest nonzero representable value 1/2; it encodes to 0. -/
theorem C6_witness : e2m1mxfp_fmt.lut_float16_to_mxfp 13312 = 0 :=
  C6_flush_to_zero.1 13312 (1 / 4) (by decide) (by decide) (by decide)

/-- C7, counterexample: in e4m3, codes 8 and 127 are non-negative with
nonzero exponent fields and 8 < 127, but code 127 decodes to NaN, so the
comparison `to_float(8) <= to_float(127)` is false. -/
theorem C7_counterexample :
    EF.le (e4m3mxfp_fmt.lut_int_to_float 8) (e4m3mxfp_fmt.lut_int_to_float 127) = false ∧
    e4m3mxfp_fmt.expField 8 ≠ 0 ∧ e4m3mxfp_fmt.expField 127 ≠ 0 := by
  refine ⟨by decide, by decide, by decide⟩

/-- C7 (amended): for non-negative codes `c1 < c2` with nonzero exponent
fields whose decode (at `c2`) is not NaN, the decoded values satisfy
`to_float(c1) <= to_float(c2)`. -/
theorem C7_monotonic_nonneg :
    (∀ c1 c2 : Fin 8, c1.val < c2.val →
      e2m1mxfp_fmt.expField c1.val ≠ 0 → e2m1mxfp_fmt.expField c2.val ≠ 0 →
      e2m1mxfp_fmt.lut_int_to_float c2.val ≠ EF.nan →
      EF.le (e2m1mxfp_fmt.lut_int_to_float c1.val)
        (e2m1mxfp_fmt.lut_int_to_float c2.val) = true) ∧
    (∀ c1 c2 : Fin 32, c1.val < c2.val →
      e2m3mxfp_fmt.expField c1.val ≠ 0 → e2m3mxfp_fmt.expField c2.val ≠ 0 →
      e2m3mxfp_fmt.lut_int_to_float c2.val ≠ EF.nan →
      EF.le (e2m3mxfp_fmt.lut_int_to_float c1.val)
        (e2m3mxfp_fmt.lut_int_to_float c2.val) = true) ∧
    (∀ c1 c2 : Fin 32, c1.val < c2.val →
      e3m2mxfp_fmt.expField c1.val ≠ 0 → e3m2mxfp_fmt.expField c2.val ≠ 0 →
      e3m2mxfp_fmt.lut_int_to_float c2.val ≠ EF.nan →
      EF.le (e3m2mxfp_fmt.lut_int_to_float c1.val)
        (e3m2mxfp_fmt.lut_int_to_float c2.val) = true) ∧
    (∀ c1 c2 : Fin 128, c1.val < c2.val →
      e4m3mxfp_fmt.expField c1.val ≠ 0 → e4m3mxfp_fmt.expField c2.val ≠ 0 →
      e4m3mxfp_fmt.lut_int_to_float c2.val ≠ EF.nan →
      EF.le (e4m3mxfp_fmt.lut_int_to_float c1.val)
        (e4m3mxfp_fmt.lut_int_to_float c2.val) = true) ∧
    (∀ c1 c2 : Fin 128, c1.val < c2.val →
      e5m2mxfp_fmt.expField c1.val ≠ 0 → e5m2mxfp_fmt.expField c2.val ≠ 0 →
      e5m2mxfp_fmt.lut_int_to_float c2.val ≠ EF.nan →
      EF.le (e5m2mxfp_fmt.lut_int_to_float c1.val)
        (e5m2mxfp_fmt.lut_int_to_float c2.val) = true) := by
  refine ⟨?_, ?_, ?_, ?_, ?_⟩
  · intro c1 c2 h12 he1 he2 hn2
    exact mono_gen e2m1mxfp_fmt 8 7 (by decide) (fun c hc _ _ => by omega)
      c1.val c2.val c1.isLt c2.isLt h12 he1 he2 hn2
  · intro c1 c2 h12 he1 he2 hn2
    exact mono_gen e2m3mxfp_fmt 32 31 (by decide) (fun c hc _ _ => by omega)
      c1.val c2.val c1.isLt c2.isLt h12 he1 he2 hn2
  · intro c1 c2 h12 he1 he2 hn2
    exact mono_gen e3m2mxfp_fmt 32 31 (by decide) (fun c hc _ _ => by omega)
      c1.val c2.val c1.isLt c2.isLt h12 he1 he2 hn2
  · intro c1 c2 h12 he1 he2 hn2
    exact mono_gen e4m3mxfp_fmt 128 126 (by decide) (by decide)
      c1.val c2.val c1.isLt c2.isLt h12 he1 he2 hn2
  · intro c1 c2 h12 he1 he2 hn2
    exact mono_gen e5m2mxfp_fmt 128 124 (by decide) (by decide)
      c1.val c2.val c1.isLt c2.isLt h12 he1 he2 hn2

/-- C7, witness: e2m1 codes 2 and 3 (values 1 and 3/2). -/
theorem C7_witness :
    EF.le (e2m1mxfp_fmt.lut_int_to_float 2) (e2m1mxfp_fmt.lut_int_to_float 3) = true :=
  C7_monotonic_nonneg.1 ⟨2, by omega⟩ ⟨3, by omega⟩ (by decide)
    (by decide) (by decide) (by decide)

/-- C8: `"0x1F"` and `"0b00011111"` (as ASCII code lists) parse to the same
bit sequence; `"0X_1f"` and `"0x1f"` tidy to the same string and parse
identically; parsing is invariant under tidying (case, underscores,
whitespace); hex digits contribute 4 bits each and binary digits 1 each. -/
theorem C8_literal_parsing :
    bitstore_from_token [48, 120, 49, 70] =
      bitstore_from_token [48, 98, 48, 48, 48, 49, 49, 49, 49, 49] ∧
    tidy_input_string [48, 88, 95, 49, 102] = tidy_input_string [48, 120, 49, 102] ∧
    bitstore_from_token [48, 88, 95, 49, 102] = bitstore_from_token [48, 120, 49, 102] ∧
    (∀ s, bitstore_from_token s = bitstore_from_token (tidy_input_string s)) ∧
    (∀ l bs, digitsToBits hexDigitVal 4 l = some bs → bs.length = 4 * l.length) ∧
    (∀ l bs, digitsToBits binDigitVal 1 l = some bs → bs.length = 1 * l.length) := by
  refine ⟨by decide, by decide, by decide, ?_,
    digitsToBits_length hexDigitVal 4, digitsToBits_length binDigitVal 1⟩
  intro s
  simp only [bitstore_from_token, tidy_idem s]

/-- C8, witness: the two hex digits of `"1F"` produce exactly 8 bits. -/
theorem C8_witness :
    ([false, false, false, true, true, true, true, true] : List Bool).length =
      4 * ([49, 70] : List ℕ).length :=
  C8_literal_parsing.2.2.2.2.1 [49, 70] _ (by decide)

/-- C9: `bitstore_from_token` fails (returns `none`, modelling the raised
`ValueError`) exactly when the tidied token's radix marker is not one of
`0x`/`0b`/`0o`, or some digit after the marker is invalid for the selected
radix; otherwise it returns a bit sequence — malformed input is never
silently coerced. -/
theorem C9_malformed_token_iff : ∀ s : List ℕ,
    bitstore_from_token s = none ↔
      ((tidy_input_string s).take 2 ∉ ([[48, 120], [48, 98], [48, 111]] : List (List ℕ)) ∨
       ∃ c ∈ (tidy_input_string s).drop 2, radixDigitVal (tidy_input_string s) c = none) := by
  intro s
  simp only [bitstore_from_token]
  by_cases hx : (tidy_input_string s).take 2 = [48, 120]
  · rw [if_pos hx]
    simp only [hex2bitstore, tidy_idem s, if_pos hx]
    rw [digitsToBits_isNone_iff]
    simp [radixDigitVal, hx]
  · rw [if_neg hx]
    by_cases hb : (tidy_input_string s).take 2 = [48, 98]
    · rw [if_pos hb]
      simp only [bin2bitstore, tidy_idem s, if_pos hb]
      rw [digitsToBits_isNone_iff]
      simp [radixDigitVal, hx, hb]
    · rw [if_neg hb]
      by_cases ho : (tidy_input_string s).take 2 = [48, 111]
      · rw [if_pos ho]
        simp only [oct2bitstore, tidy_idem s, if_pos ho]
        rw [digitsToBits_isNone_iff]
        simp [radixDigitVal, hx, hb, ho]
      · rw [if_neg ho]
        simp [hx, hb, ho]

/-- C10: every half-precision bit pattern that decodes to a zero with the
sign bit set (negative zero, i.e. exactly pattern `0x8000`) is mapped by
every format's encode table to code 0, never to the negative-zero code
`2^(E+M)`. -/
theorem C10_negative_zero_pattern :
    (∀ p : Fin 65536, fp16val p.val = EF.fin 0 → 32768 ≤ p.val →
      e2m1mxfp_fmt.lut_float16_to_mxfp p.val = 0) ∧
    (∀ p : Fin 65536, fp16val p.val = EF.fin 0 → 32768 ≤ p.val →
      e2m3mxfp_fmt.lut_float16_to_mxfp p.val = 0) ∧
    (∀ p : Fin 65536, fp16val p.val = EF.fin 0 → 32768 ≤ p.val →
      e3m2mxfp_fmt.lut_float16_to_mxfp p.val = 0) ∧
    (∀ p : Fin 65536, fp16val p.val = EF.fin 0 → 32768 ≤ p.val →
      e4m3mxfp_fmt.lut_float16_to_mxfp p.val = 0) ∧
    (∀ p : Fin 65536, fp16val p.val = EF.fin 0 → 32768 ≤ p.val →
      e5m2mxfp_fmt.lut_float16_to_mxfp p.val = 0) := by
  refine ⟨?_, ?_, ?_, ?_, ?_⟩ <;>
  · intro p hval _
    simp only [MXFPFormat.lut_float16_to_mxfp, hval]
    decide

/-- C10, witness: the negative-zero pattern `0x8000` encodes to 0 in e2m1. -/
theorem C10_witness : e2m1mxfp_fmt.lut_float16_to_mxfp 32768 = 0 :=
  C10_negative_zero_pattern.1 ⟨32768, by omega⟩ (by decide) (by decide)

end Claims

end Bitstring
